import Mathlib

/-!
Shallow embedding of the emerge-presence daemon (`src/main.rs`): the presence
protocol client (framing, handshake, send/receive, reconnect) and the
debounce state machine driven by the event-loop function `run`.

Modelling conventions:
* Rust strings that cross the wire are represented by their UTF-8 byte
  sequences (`List Nat`, one entry per byte).  A Rust `String` is exactly a
  valid-UTF-8 byte vector, and `str::from_utf8` is the identity on the bytes
  whenever they validate, so byte-level equality is string equality.
* Machine integers (`u32`) are `Nat`; the little-endian framing is explicit.
* Socket reads are scripted: each entry of `StreamSt.reads` is the outcome of
  the next `read` / `read_exact` call on the socket (the bytes delivered, or
  the kind of I/O error raised).  Socket writes consume `StreamSt.writeFates`
  (an exhausted script means the write succeeds), and successful writes are
  logged in `StreamSt.written` as the abstract message sent; the peer-visible
  bytes of one frame are given by `sendFrameBytes`.
* External collaborators (the merge-list provider, serde_json parsing of the
  inbound command payload, the random generator, both clocks, endpoint
  discovery and socket establishment) are explicit inputs of each operation.
* `UnixStream::flush` is a no-op returning `Ok(())` in the Rust standard
  library, and shutdown errors are ignored by the source, so `reconnect`
  models both as state-preserving.
-/

/-- Little-endian bytes of a `u32`, as produced by `u32::to_le_bytes`
(`main.rs` lines 102-103).  Values ≥ 2^32 are truncated exactly as the
`as u32` cast does. -/
def u32le (n : Nat) : List Nat :=
  [n % 256, n / 256 % 256, n / 65536 % 256, n / 16777216 % 256]

/-- `u32::from_le_bytes` on a 4-byte buffer (`main.rs` line 240). -/
def leToNat : List Nat → Nat
  | [a, b, c, d] => a + 256 * b + 65536 * c + 16777216 * d
  | _ => 0

/-- Is `c` a UTF-8 continuation byte (`0x80..=0xBF`)? -/
def isCont (c : Nat) : Bool := 128 ≤ c && c ≤ 191

/-- The length of the UTF-8 sequence led by byte `b`, or 0 for an invalid
leading byte (continuation bytes `0x80..0xBF`, the overlong leaders
`0xC0`/`0xC1`, and `0xF5..` are invalid leaders). -/
def seqLen (b : Nat) : Nat :=
  if b ≤ 127 then 1
  else if b ≤ 193 then 0
  else if b ≤ 223 then 2
  else if b ≤ 239 then 3
  else if b ≤ 244 then 4
  else 0

/-- The admissible range of the first continuation byte after leader `b`:
`0xE0` and `0xF0` exclude overlong encodings, `0xED` excludes surrogates,
and `0xF4` excludes scalars above `U+10FFFF`. -/
def cont1OK (b c : Nat) : Bool :=
  if b == 224 then 160 ≤ c && c ≤ 191
  else if b == 237 then 128 ≤ c && c ≤ 159
  else if b == 240 then 144 ≤ c && c ≤ 191
  else if b == 244 then 128 ≤ c && c ≤ 143
  else isCont c

/-- UTF-8 validation, as performed by `std::str::from_utf8`
(`main.rs` lines 117 and 261): ASCII, and 2-4 byte sequences with the
standard overlong/surrogate/out-of-range exclusions. -/
def validUtf8 : List Nat → Bool
  | [] => true
  | b :: l =>
    if b ≤ 127 then validUtf8 l
    else
      match seqLen b, l with
      | 2, c1 :: l1 => cont1OK b c1 && validUtf8 l1
      | 3, c1 :: c2 :: l2 => cont1OK b c1 && isCont c2 && validUtf8 l2
      | 4, c1 :: c2 :: c3 :: l3 => cont1OK b c1 && isCont c2 && isCont c3 && validUtf8 l3
      | _, _ => false

/-- Split a byte sequence at every NUL byte, keeping empty segments
(Rust `str::split('\u{0}')`). -/
def splitAll : List Nat → List (List Nat)
  | [] => [[]]
  | b :: rest =>
    if b = 0 then [] :: splitAll rest
    else
      match splitAll rest with
      | s :: ss => (b :: s) :: ss
      | [] => [[b]]

/-- Rust `str::split_terminator('\u{0}')` (`main.rs` line 262): like
`split`, but a trailing empty segment is dropped. -/
def splitTerm (bs : List Nat) : List (List Nat) :=
  if (splitAll bs).getLast? = some [] then (splitAll bs).dropLast else splitAll bs

/-- The character for one hexadecimal digit, lowercase (Rust `{:x}`
formatting). -/
def hexDigitChar (n : Nat) : Char :=
  if n < 10 then Char.ofNat (48 + n) else Char.ofNat (87 + n)

/-- Fueled most-significant-first hex rendering accumulator.  33 units of
fuel cover every `u128` (which has at most 32 hex digits). -/
def hexDigitsAux : Nat → Nat → List Char → List Char
  | 0, _, acc => acc
  | fuel + 1, n, acc =>
    if n < 16 then hexDigitChar n :: acc
    else hexDigitsAux fuel (n / 16) (hexDigitChar (n % 16) :: acc)

/-- Lowercase hex digits of `n` (no leading zeroes; `0` renders as "0"). -/
def hexDigits (n : Nat) : List Char := hexDigitsAux 33 n []

/-- `Client::nonce` (`main.rs` lines 94-96): `format!("{:016x}", r)` for the
random value `r` drawn from `rand::random::<u128>()` — lowercase hex,
zero-padded on the left to a minimum width of 16. -/
def nonceStr (r : Nat) : String :=
  ⟨List.replicate (16 - (hexDigits r).length) '0' ++ hexDigits r⟩

/-- Is `c` a lowercase hexadecimal character (`0-9` or `a-f`)? -/
def isLowerHexChar (c : Char) : Bool :=
  (48 ≤ c.toNat && c.toNat ≤ 57) || (97 ≤ c.toNat && c.toNat ≤ 102)

/-- The kinds of I/O error distinguished by `Client::handle_io`
(`main.rs` lines 66-82): `BrokenPipe`, `ConnectionReset`, and everything
else. -/
inductive IOKind
  | brokenPipe
  | connectionReset
  | other
deriving DecidableEq

/-- The error taxonomy of the client, one constructor per `anyhow` context
string or propagated error class in the source. -/
inductive ClErr
  | endpointNotFound
  | connectionRefused
  | connectionLost
  | socketNotOpen
  | notEnoughBytes
  | utf8Error
  | jsonError
  | ioErr (k : IOKind)
deriving DecidableEq

/-- Outcome of one socket read call. -/
inductive ReadRes
  | bytes (bs : List Nat)
  | ioFail (k : IOKind)
deriving DecidableEq

/-- Outcome scripted for one socket write call. -/
inductive WriteFate
  | succeed
  | fail (k : IOKind)
deriving DecidableEq

/-- `PackageState` (`main.rs` lines 209-215). -/
inductive PackageState
  | preparing
  | compiling
  | installing
deriving DecidableEq

/-- The lowercase wire form of a `PackageState`
(`#[serde(rename_all = "lowercase")]`, `main.rs` line 210). -/
def PackageState.wire : PackageState → String
  | .preparing => "preparing"
  | .compiling => "compiling"
  | .installing => "installing"

/-- `PackagePayload` (`main.rs` lines 227-232). -/
structure PackagePayload where
  category : String
  package : String
  state : Option PackageState
deriving DecidableEq

/-- The `party` object built by `set_package` (`main.rs` lines 160-163):
a fixed id and a `[current, total]` size pair. -/
structure Party where
  pid : String
  size : Nat × Nat
deriving DecidableEq

/-- The activity object built by `set_package` (`main.rs` lines 172-193):
mandatory `details`, `timestamps.start` and `assets.large_image`, then
`state` and `party` inserted only when present. -/
structure Activity where
  details : String
  start : Nat
  large_image : String
  state : Option PackageState
  party : Option Party
deriving DecidableEq

/-- The messages this program ever sends, one constructor per `json!` call
site: the handshake `{v, client_id, nonce}` (lines 124-128), the
`SET_ACTIVITY` command `{cmd, nonce, args: {activity, pid: 0}}`
(lines 197-204), and the empty disconnect notice (line 136). -/
inductive WireMsg
  | handshake (v : Nat) (client_id : String) (nonce : String)
  | setActivity (nonce : String) (act : Activity)
  | disconnect
deriving DecidableEq

/-- The state of a live socket: scripted read outcomes, scripted write
outcomes, and the log of messages successfully written. -/
structure StreamSt where
  reads : List ReadRes
  writeFates : List WriteFate
  written : List (Nat × WireMsg)
deriving DecidableEq

/-- The `Client` struct (`main.rs` lines 47-52). -/
structure Client where
  client_id : String
  stream : Option StreamSt
  path : Option String
  merge_len : Option Nat
deriving DecidableEq

/-- `Client::is_connected` (`main.rs` lines 63-65). -/
def Client.is_connected (c : Client) : Bool := c.stream.isSome

/-- `Client::handle_io` (`main.rs` lines 66-82): on `BrokenPipe` or
`ConnectionReset`, shut the socket down, drop it, and fail with the
"Broken Pipe" error (the spec's `ConnectionLost`) — unless the socket is
already gone, in which case the error is swallowed.  Other I/O errors
propagate unchanged. -/
def Client.handle_io (c : Client) : Except IOKind Unit → Client × Except ClErr Unit
  | .ok () => (c, .ok ())
  | .error k =>
    match k with
    | .brokenPipe | .connectionReset =>
      match c.stream with
      | some _ => ({ c with stream := none }, .error .connectionLost)
      | none => (c, .ok ())
    | .other => (c, .error (.ioErr .other))

/-- The frame bytes assembled by `Client::send` (`main.rs` lines 99-104):
4-byte little-endian opcode, 4-byte little-endian payload byte length, then
the payload bytes (the UTF-8 JSON text). -/
def sendFrameBytes (opcode : Nat) (payload : List Nat) : List Nat :=
  u32le opcode ++ u32le payload.length ++ payload

/-- `Client::send` (`main.rs` lines 97-109) at the message level: fail if the
socket is absent, otherwise perform one `write_all` whose outcome is the next
scripted write fate, routed through `handle_io`. -/
def Client.send (c : Client) (opcode : Nat) (payload : WireMsg) :
    Client × Except ClErr Unit :=
  match c.stream with
  | none => (c, .error .socketNotOpen)
  | some st =>
    match st.writeFates with
    | [] =>
      ({ c with stream := some { st with written := st.written ++ [(opcode, payload)] } },
       .ok ())
    | .succeed :: rest =>
      let st' := { st with writeFates := rest, written := st.written ++ [(opcode, payload)] }
      ({ c with stream := some st' }, .ok ())
    | .fail k :: rest =>
      Client.handle_io { c with stream := some { st with writeFates := rest } } (.error k)

/-- `get_number` (`main.rs` lines 234-242): a single `read` into a 4-byte
buffer.  An I/O error propagates as-is (note: *not* through `handle_io`);
fewer than 4 bytes is the "Not enough bytes" protocol error; otherwise the
4 bytes are decoded little-endian.  An exhausted read script behaves as
end-of-stream (a 0-byte read). -/
def get_number (st : StreamSt) : StreamSt × Except ClErr Nat :=
  match st.reads with
  | [] => (st, .error .notEnoughBytes)
  | r :: rest =>
    let st' := { st with reads := rest }
    match r with
    | .ioFail k => (st', .error (.ioErr k))
    | .bytes bs =>
      if bs.length < 4 then (st', .error .notEnoughBytes)
      else (st', .ok (leToNat (bs.take 4)))

/-- `Client::recv` (`main.rs` lines 110-120): two `get_number` header reads,
then a `read_exact` of the payload routed through `handle_io`, then UTF-8
validation of the payload bytes. -/
def Client.recv (c : Client) : Client × Except ClErr (Nat × List Nat) :=
  match c.stream with
  | none => (c, .error .socketNotOpen)
  | some st =>
    match get_number st with
    | (st1, .error e) => ({ c with stream := some st1 }, .error e)
    | (st1, .ok opcode) =>
      match get_number st1 with
      | (st2, .error e) => ({ c with stream := some st2 }, .error e)
      | (st2, .ok len) =>
        match st2.reads with
        | [] => ({ c with stream := some st2 }, .error (.ioErr .other))
        | r :: rest =>
          let c2 : Client := { c with stream := some { st2 with reads := rest } }
          match r with
          | .ioFail k =>
            let hio := c2.handle_io (.error k)
            (hio.1, .error (match hio.2 with | .error e => e | .ok _ => .ioErr k))
          | .bytes bs =>
            if bs.length = len then
              if validUtf8 bs then (c2, .ok (opcode, bs))
              else (c2, .error .utf8Error)
            else
              let hio := c2.handle_io (.error .other)
              (hio.1, .error (match hio.2 with | .error e => e | .ok _ => .ioErr .other))

/-- The outcome environment of one endpoint-resolution + connection attempt:
the resolved socket path (if `find_ipc_path` succeeds), the fresh socket
state (if `UnixStream::connect` succeeds), and the randomness drawn for the
handshake nonce. -/
structure ConnEnv where
  ipcPath : Option String
  socket : Option StreamSt
  hsRand : Nat
deriving DecidableEq

/-- `Client::handshake` (`main.rs` lines 121-132): send opcode 0 with
`{v: 1, client_id, nonce}`, then read (and merely log) the response; the
result is that of the send, while the receive's state effects are kept. -/
def Client.handshake (c : Client) (r : Nat) : Client × Except ClErr Unit :=
  let s1 := c.send 0 (.handshake 1 c.client_id (nonceStr r))
  let s2 := s1.1.recv
  (s2.1, s1.2)

/-- `Client::connect` (`main.rs` lines 83-93): no-op if connected; otherwise
resolve the endpoint (`EndpointNotFound` on failure), attempt the socket
connection (`ConnectionRefused` on failure), then handshake. -/
def Client.connect (c : Client) (env : ConnEnv) : Client × Except ClErr Unit :=
  if c.is_connected then (c, .ok ())
  else
    match env.ipcPath with
    | none => (c, .error .endpointNotFound)
    | some p =>
      match env.socket with
      | none => ({ c with path := some p, stream := none }, .error .connectionRefused)
      | some st => Client.handshake { c with path := some p, stream := some st } env.hsRand

/-- `Client::reconnect` (`main.rs` lines 133-152): best-effort disconnect
notice (result ignored), flush (a no-op `Ok` on `UnixStream`) and shutdown
(errors ignored, handle kept), then a fresh endpoint resolution, connection
and handshake. -/
def Client.reconnect (c : Client) (env : ConnEnv) : Client × Except ClErr Unit :=
  let s1 := c.send 2 .disconnect
  let c1 := s1.1
  match env.ipcPath with
  | none => (c1, .error .endpointNotFound)
  | some p =>
    match env.socket with
    | none => ({ c1 with path := some p, stream := none }, .error .connectionRefused)
    | some st => Client.handshake { c1 with path := some p, stream := some st } env.hsRand

/-- The activity object built by `Client::set_package`
(`main.rs` lines 155-193) from the *previous* `merge_len`, the freshly
queried merge-list `count`, the payload and the current wall-clock millis:
`details = "<category>/<package>"`, the fixed large image, the optional
`state`, and `party` present exactly when `new_count ≥ 1` with size
`[new_count - count + 1, new_count]`. -/
def setPackageActivity (merge_len : Option Nat) (count : Nat)
    (pl : PackagePayload) (nowMs : Nat) : Activity :=
  let new_count := max (merge_len.getD 0) count
  { details := pl.category ++ "/" ++ pl.package
    start := nowMs
    large_image := "gentoodrpgt"
    state := pl.state
    party :=
      if new_count = 0 then none
      else some { pid := "id", size := (new_count - count + 1, new_count) } }

/-- `Client::set_package` (`main.rs` lines 154-206): query the merge-list
length (`count`), store `merge_len := max (old, count)`, build the activity,
and send it as opcode 1 `SET_ACTIVITY`.  Note the store happens before the
send. -/
def Client.set_package (c : Client) (pl : PackagePayload) (count : Nat)
    (nowMs : Nat) (r : Nat) : Client × Except ClErr Unit :=
  let act := setPackageActivity c.merge_len count pl nowMs
  let c1 := { c with merge_len := some (max (c.merge_len.getD 0) count) }
  c1.send 1 (.setActivity (nonceStr r) act)

/-- The external inputs of one `run` iteration: the bytes drained from the
command fifo, the monotone clock (whole seconds, so that
`Duration::from_secs(30)` is the literal 30), the wall clock in millis, the
merge-list length answer, the serde_json payload parse oracle, the
randomness for the `SET_ACTIVITY` nonce, and the connection environments
used if `connect` (resp. `reconnect`) runs this iteration. -/
structure RunEnv where
  readBytes : List Nat
  now : Nat
  nowMs : Nat
  count : Nat
  parse : List Nat → Option PackagePayload
  setRand : Nat
  conn : ConnEnv
  reconn : ConnEnv

/-- The mutable state threaded through `run` (`main.rs` lines 244-250):
the client, the byte accumulator `buf`, and the pending-unset timestamp
`last_unset`. -/
structure LoopState where
  client : Client
  buf : List Nat
  lastUnset : Option Nat
deriving DecidableEq

/-- The ASCII bytes of the command prefix `"set "`. -/
def setCmdBytes : List Nat := [115, 101, 116, 32]

/-- The ASCII bytes of the command prefix `"unset"`. -/
def unsetCmdBytes : List Nat := [117, 110, 115, 101, 116]

/-- The command-processing block of `run` (`main.rs` lines 259-284), entered
when this iteration read at least one byte and the client is connected:
UTF-8-check the whole accumulator, split on NUL terminators, and dispatch
only the last command; `buf` is cleared only when the block runs to
completion (every `?` failure skips the clear). -/
def processCmds (e : RunEnv) (s : LoopState) : LoopState × Except ClErr Unit :=
  if validUtf8 s.buf then
    match (splitTerm s.buf).getLast? with
    | none => ({ s with buf := [] }, .ok ())
    | some cmd =>
      if setCmdBytes.isPrefixOf cmd then
        match e.parse (cmd.drop 4) with
        | none => (s, .error .jsonError)
        | some pl =>
          match s.client.set_package pl e.count e.nowMs e.setRand with
          | (c, .error er) => ({ s with client := c }, .error er)
          | (c, .ok ()) =>
            let c2 := c.recv
            ({ s with client := c2.1, buf := [], lastUnset := none }, .ok ())
      else if unsetCmdBytes.isPrefixOf cmd then
        ({ s with buf := [], lastUnset := some e.now }, .ok ())
      else ({ s with buf := [] }, .ok ())
  else (s, .error .utf8Error)

/-- The debounce tick of `run` (`main.rs` lines 286-293): if an unset is
pending and strictly more than 30 seconds have elapsed, reconnect; only on
success are `merge_len` and `last_unset` cleared (the `?` on a failed
reconnect skips both). -/
def tickUnset (e : RunEnv) (s : LoopState) : LoopState × Except ClErr Unit :=
  match s.lastUnset with
  | none => (s, .ok ())
  | some t =>
    if 30 < e.now - t then
      match s.client.reconnect e.reconn with
      | (c, .error er) => ({ s with client := c }, .error er)
      | (c, .ok ()) =>
        ({ s with client := { c with merge_len := none }, lastUnset := none }, .ok ())
    else (s, .ok ())

/-- One iteration of `run` (`main.rs` lines 244-296): poll (elided), drain
the fifo into the accumulator, reconnect-or-process, then the debounce
tick.  When the client is not connected the iteration is exactly
`client.connect()` (buffered bytes are kept but not processed). -/
def runStep (e : RunEnv) (s : LoopState) : LoopState × Except ClErr Unit :=
  let s0 := { s with buf := s.buf ++ e.readBytes }
  if s0.client.is_connected = false then
    let cr := s0.client.connect e.conn
    ({ s0 with client := cr.1 }, cr.2)
  else
    match (if 0 < e.readBytes.length then processCmds e s0 else (s0, .ok ())) with
    | (s1, .error er) => (s1, .error er)
    | (s1, .ok ()) => tickUnset e s1

/-- A command of the debounce controller, as dispatched by `run`. -/
inductive DebCmd
  | set
  | unset
deriving DecidableEq

/-- The debounce controller of `run` restricted to its `last_unset` field
(`main.rs` lines 267-293), under the assumption that every dispatched
command and every attempted reconnect succeeds: a processed `set` clears the
pending unset, a processed `unset` stamps it with the current time, and the
tick clears it once strictly more than 30 seconds have elapsed. -/
def debounceStep (now : Nat) (cmd : Option DebCmd) (lu : Option Nat) : Option Nat :=
  let lu1 := match cmd with
    | some .set => none
    | some .unset => some now
    | none => lu
  match lu1 with
  | some t => if 30 < now - t then none else some t
  | none => none

/-- Run the debounce controller over a timed trace of iterations, starting
from `Idle` (`last_unset = None`, `main.rs` line 348). -/
def runTrace (l : List (Nat × Option DebCmd)) : Option Nat :=
  l.foldl (fun st p => debounceStep p.1 p.2 st) none

/-- The last command of a trace together with its timestamp, if any. -/
def lastCmd (l : List (Nat × Option DebCmd)) : Option (Nat × DebCmd) :=
  l.reverse.findSome? fun p => p.2.map fun c => (p.1, c)

/-- The time of the final iteration of a trace (0 for the empty trace). -/
def finalTime (l : List (Nat × Option DebCmd)) : Nat :=
  ((l.getLast?).map Prod.fst).getD 0

/-- The read script seen by `recv` on a socket whose peer has just written
`sendFrameBytes opcode payload`: the first 4-byte read delivers the opcode
bytes, the second one the length bytes, and the payload `read_exact` the
rest of the frame. -/
def frameScript (opcode : Nat) (payload : List Nat) : List ReadRes :=
  [.bytes ((sendFrameBytes opcode payload).take 4),
   .bytes (((sendFrameBytes opcode payload).drop 4).take 4),
   .bytes ((sendFrameBytes opcode payload).drop 8)]

/-- The dispatch-observable part of one `run` iteration result: the client,
the pending-unset timestamp and the returned result — everything except the
byte accumulator. -/
def obs (p : LoopState × Except ClErr Unit) : Client × Option Nat × Except ClErr Unit :=
  (p.1.client, p.1.lastUnset, p.2)

/-- The UTF-8 bytes of the burst `"unset\0set {x}\0unset"`: three
NUL-separated commands delivered by one read. -/
def burstBytes : List Nat :=
  [117, 110, 115, 101, 116, 0, 115, 101, 116, 32, 123, 120, 125, 0, 117, 110, 115, 101, 116]

theorem seqLen_ascii (b : Nat) (h : b ≤ 127) : seqLen b = 1 := by
  simp [seqLen, h]

theorem validUtf8_cons_ascii (b : Nat) (l : List Nat) (h : b ≤ 127) :
    validUtf8 (b :: l) = validUtf8 l := by
  have hs : seqLen b = 1 := seqLen_ascii b h
  rw [validUtf8.eq_5 b l (by intro c1 l1 h2 _; omega) (by intro c1 c2 l2 h3 _; omega)
    (by intro c1 c2 c3 l3 h4 _; omega)]
  exact if_pos h

theorem validUtf8_append (p : List Nat) (hp : validUtf8 p = true) (q : List Nat) :
    validUtf8 (p ++ q) = validUtf8 q := by
  induction p using validUtf8.induct with
  | case1 => simp
  | case2 b l hb ih =>
    rw [validUtf8_cons_ascii b l hb] at hp
    rw [List.cons_append, validUtf8_cons_ascii b (l ++ q) hb]
    exact ih hp
  | case3 b hb c1 l1 hs ih =>
    rw [validUtf8.eq_2 b c1 l1 hs, if_neg hb] at hp
    simp only [List.cons_append]
    rw [validUtf8.eq_2 b c1 (l1 ++ q) hs, if_neg hb]
    simp only [Bool.and_eq_true] at hp
    rw [ih hp.2, hp.1, Bool.true_and]
  | case4 b hb c1 c2 l2 hs ih =>
    rw [validUtf8.eq_3 b c1 c2 l2 hs, if_neg hb] at hp
    simp only [List.cons_append]
    rw [validUtf8.eq_3 b c1 c2 (l2 ++ q) hs, if_neg hb]
    simp only [Bool.and_eq_true] at hp
    rw [ih hp.2, hp.1.1, hp.1.2, Bool.true_and, Bool.true_and]
  | case5 b hb c1 c2 c3 l3 hs ih =>
    rw [validUtf8.eq_4 b c1 c2 c3 l3 hs, if_neg hb] at hp
    simp only [List.cons_append]
    rw [validUtf8.eq_4 b c1 c2 c3 (l3 ++ q) hs, if_neg hb]
    simp only [Bool.and_eq_true] at hp
    rw [ih hp.2, hp.1.1.1, hp.1.1.2, hp.1.2]
    simp
  | case6 b l hb hn2 hn3 hn4 =>
    rw [validUtf8.eq_5 b l (fun c1 l1 a b => hn2 c1 l1 a b) (fun c1 c2 l2 a b => hn3 c1 c2 l2 a b)
      (fun c1 c2 c3 l3 a b => hn4 c1 c2 c3 l3 a b), if_neg hb] at hp
    cases hp

theorem u32le_take4 (n : Nat) : (u32le n).take 4 = u32le n := rfl

theorem u32le_length (n : Nat) : (u32le n).length = 4 := rfl

theorem leToNat_u32le (n : Nat) (h : n < 4294967296) : leToNat (u32le n) = n := by
  simp only [u32le, leToNat]
  omega

theorem splitAll_ne_nil (l : List Nat) : splitAll l ≠ [] := by
  induction l with
  | nil => simp [splitAll]
  | cons b rest ih =>
    simp only [splitAll]
    split
    · simp
    · split <;> simp

theorem splitAll_cons_zero (rest : List Nat) : splitAll (0 :: rest) = [] :: splitAll rest := by
  simp [splitAll]

theorem splitAll_cons_ne (b : Nat) (rest : List Nat) (hb : b ≠ 0) :
    splitAll (b :: rest) =
      match splitAll rest with
      | s :: ss => (b :: s) :: ss
      | [] => [[b]] := by
  simp [splitAll, hb]

theorem splitAll_append_zero (xs ys : List Nat) :
    splitAll (xs ++ 0 :: ys) = splitAll xs ++ splitAll ys := by
  induction xs with
  | nil => simp [splitAll]
  | cons b rest ih =>
    by_cases hb : b = 0
    · subst hb
      rw [List.cons_append, splitAll_cons_zero, splitAll_cons_zero, ih]
      rfl
    · rw [List.cons_append, splitAll_cons_ne b (rest ++ 0 :: ys) hb, splitAll_cons_ne b rest hb,
        ih]
      cases h : splitAll rest with
      | nil => exact absurd h (splitAll_ne_nil rest)
      | cons s ss => simp

theorem splitAll_no_zero (c : List Nat) (h : 0 ∉ c) : splitAll c = [c] := by
  induction c with
  | nil => rfl
  | cons b rest ih =>
    have hb : b ≠ 0 := by
      intro e
      exact h (by simp [e])
    have hrest : 0 ∉ rest := by
      intro hm
      exact h (List.mem_cons_of_mem _ hm)
    simp only [splitAll, hb, if_false, ih hrest]

theorem splitTerm_no_zero (c : List Nat) (h : 0 ∉ c) (hne : c ≠ []) : splitTerm c = [c] := by
  simp [splitTerm, splitAll_no_zero c h, hne]

theorem splitTerm_append_getLast (p c : List Nat) (h : 0 ∉ c) (hne : c ≠ []) :
    (splitTerm (p ++ 0 :: c)).getLast? = some c := by
  simp only [splitTerm, splitAll_append_zero, splitAll_no_zero c h]
  have h1 : (splitAll p ++ [c]).getLast? = some c := by
    simp [List.getLast?_append]
  simp [h1, hne]

theorem hexDigitChar_hex (n : Nat) (h : n < 16) : isLowerHexChar (hexDigitChar n) = true := by
  interval_cases n <;> decide

theorem hexDigitsAux_length_le (fuel : Nat) :
    ∀ (k n : Nat) (acc : List Char), 1 ≤ k → n < 16 ^ k → k ≤ fuel →
      (hexDigitsAux fuel n acc).length ≤ k + acc.length := by
  induction fuel with
  | zero =>
    intro k n acc hk _ hfuel
    omega
  | succ f ih =>
    intro k n acc hk hn hfuel
    simp only [hexDigitsAux]
    split
    · simp only [List.length_cons]
      omega
    · rename_i hge
      have hk2 : 2 ≤ k := by
        by_contra hcon
        have hk1 : k = 1 := by omega
        subst hk1
        simp [pow_one] at hn
        omega
      have hdiv : n / 16 < 16 ^ (k - 1) := by
        have hpow : 16 ^ k = 16 ^ (k - 1) * 16 := by
          rw [← pow_succ]
          congr 1
          omega
        rw [hpow] at hn
        exact Nat.div_lt_of_lt_mul (by omega)
      have := ih (k - 1) (n / 16) (hexDigitChar (n % 16) :: acc) (by omega) hdiv (by omega)
      simp only [List.length_cons] at this
      omega

theorem hexDigitsAux_length_ge (fuel : Nat) :
    ∀ (n : Nat) (acc : List Char), 1 ≤ fuel →
      acc.length + 1 ≤ (hexDigitsAux fuel n acc).length := by
  induction fuel with
  | zero =>
    intro n acc h
    omega
  | succ f ih =>
    intro n acc _
    simp only [hexDigitsAux]
    split
    · simp
    · cases f with
      | zero => simp [hexDigitsAux]
      | succ f2 =>
        have := ih (n / 16) (hexDigitChar (n % 16) :: acc) (by omega)
        simp only [List.length_cons] at this
        omega

theorem hexDigitsAux_chars (fuel : Nat) :
    ∀ (n : Nat) (acc : List Char), (∀ ch ∈ acc, isLowerHexChar ch = true) →
      ∀ ch ∈ hexDigitsAux fuel n acc, isLowerHexChar ch = true := by
  induction fuel with
  | zero =>
    intro n acc hacc
    simpa [hexDigitsAux] using hacc
  | succ f ih =>
    intro n acc hacc
    simp only [hexDigitsAux]
    split
    · intro ch hch
      rcases List.mem_cons.mp hch with h | h
      · subst h
        exact hexDigitChar_hex n (by omega)
      · exact hacc ch h
    · refine ih (n / 16) (hexDigitChar (n % 16) :: acc) ?_
      intro ch hch
      rcases List.mem_cons.mp hch with h | h
      · subst h
        exact hexDigitChar_hex (n % 16) (by omega)
      · exact hacc ch h

theorem nonceStr_length (r : Nat) :
    (nonceStr r).length = (16 - (hexDigits r).length) + (hexDigits r).length := by
  simp [nonceStr, String.length]

theorem handle_io_merge_len (c : Client) (io : Except IOKind Unit) :
    (c.handle_io io).1.merge_len = c.merge_len := by
  cases io with
  | ok u => cases u; rfl
  | error k => cases k <;> cases hc : c.stream <;> simp [Client.handle_io, hc]

theorem send_merge_len (c : Client) (o : Nat) (m : WireMsg) :
    (c.send o m).1.merge_len = c.merge_len := by
  cases hc : c.stream with
  | none => simp [Client.send, hc]
  | some st =>
    cases hf : st.writeFates with
    | nil => simp [Client.send, hc, hf]
    | cons f rest =>
      cases f with
      | succeed => simp [Client.send, hc, hf]
      | fail k =>
        simp only [Client.send, hc, hf]
        rw [handle_io_merge_len]

theorem recv_merge_len (c : Client) : (c.recv).1.merge_len = c.merge_len := by
  cases hc : c.stream with
  | none => simp [Client.recv, hc]
  | some st =>
    simp only [Client.recv, hc]
    split
    · rfl
    · split
      · rfl
      · split
        · rfl
        · split
          · rw [handle_io_merge_len]
          · split
            · split <;> rfl
            · rw [handle_io_merge_len]

theorem handshake_merge_len (c : Client) (r : Nat) :
    (c.handshake r).1.merge_len = c.merge_len := by
  simp only [Client.handshake]
  rw [recv_merge_len, send_merge_len]

theorem connect_merge_len (c : Client) (env : ConnEnv) :
    (c.connect env).1.merge_len = c.merge_len := by
  simp only [Client.connect]
  split
  · rfl
  · split
    · rfl
    · split
      · rfl
      · rw [handshake_merge_len]

theorem reconnect_merge_len (c : Client) (env : ConnEnv) :
    (c.reconnect env).1.merge_len = c.merge_len := by
  simp only [Client.reconnect]
  split
  · rw [send_merge_len]
  · split
    · rw [send_merge_len]
    · rw [handshake_merge_len]
      rw [send_merge_len]

theorem set_package_merge_len (c : Client) (pl : PackagePayload) (count nowMs r : Nat) :
    (c.set_package pl count nowMs r).1.merge_len = some (max (c.merge_len.getD 0) count) := by
  simp only [Client.set_package]
  rw [send_merge_len]

/-- C8 counterexample: the claim says every nonce renders as exactly 16
lowercase hex characters, but `format!("{:016x}", r)` pads to a *minimum*
width of 16, and `r = 2^64` (a perfectly possible `u128` draw) renders as
the 17-character string "10000000000000000". -/
theorem c8_counterexample :
    (nonceStr 18446744073709551616).length = 17 ∧
      ¬ (nonceStr 18446744073709551616).length = 16 := by
  constructor
  · decide
  · decide

/-- C8 (amended): every nonce is the fresh random 128-bit value rendered in
lowercase hexadecimal, zero-padded on the left to a minimum width of 16:
its length lies in 16..=32, it is exactly 16 only when the drawn value is
below 2^64, and every character is a lowercase hex digit. -/
theorem c8_nonce_hex_rendering (r : Nat) (hr : r < 2 ^ 128) :
    16 ≤ (nonceStr r).length ∧ (nonceStr r).length ≤ 32 ∧
      (r < 2 ^ 64 → (nonceStr r).length = 16) ∧
      ∀ ch ∈ (nonceStr r).data, isLowerHexChar ch = true := by
  have hge : 1 ≤ (hexDigits r).length := by
    have h := hexDigitsAux_length_ge 33 r [] (by omega)
    simpa [hexDigits] using h
  have hle32 : (hexDigits r).length ≤ 32 := by
    have h16 : (16 : Nat) ^ 32 = 2 ^ 128 := by norm_num
    have h := hexDigitsAux_length_le 33 32 r [] (by omega) (by omega) (by omega)
    simpa [hexDigits] using h
  refine ⟨?_, ?_, ?_, ?_⟩
  · rw [nonceStr_length]
    omega
  · rw [nonceStr_length]
    omega
  · intro h64
    have h16 : (16 : Nat) ^ 16 = 2 ^ 64 := by norm_num
    have h := hexDigitsAux_length_le 33 16 r [] (by omega) (by omega) (by omega)
    have hle16 : (hexDigits r).length ≤ 16 := by simpa [hexDigits] using h
    rw [nonceStr_length]
    omega
  · intro ch hch
    have hdata : (nonceStr r).data =
        List.replicate (16 - (hexDigits r).length) '0' ++ hexDigits r := rfl
    rw [hdata] at hch
    rcases List.mem_append.mp hch with h | h
    · have : ch = '0' := List.eq_of_mem_replicate h
      subst this
      decide
    · exact hexDigitsAux_chars 33 r [] (by simp) ch h

/-- C8 witness: the amended rendering facts hold at the concrete draw 0. -/
theorem c8_witness :
    16 ≤ (nonceStr 0).length ∧ (nonceStr 0).length ≤ 32 ∧
      (0 < 2 ^ 64 → (nonceStr 0).length = 16) ∧
      ∀ ch ∈ (nonceStr 0).data, isLowerHexChar ch = true :=
  c8_nonce_hex_rendering 0 (by norm_num)

/-- C4: in `set_package`, with `new_count = max (previous merge_len or 0)
count`, the built activity has a `party` field iff `new_count ≥ 1`, and its
size is `[new_count - count + 1, new_count]`; in particular the previous
maximum 5 with fresh count 2 gives size `[4, 5]`, and `new_count = 0` gives
no party field. -/
theorem c4_party_field (ml : Option Nat) (count : Nat) (pl : PackagePayload) (nowMs : Nat) :
    ((setPackageActivity ml count pl nowMs).party.isSome ↔ 1 ≤ max (ml.getD 0) count) ∧
    (setPackageActivity ml count pl nowMs).party =
      (if max (ml.getD 0) count = 0 then none
       else some { pid := "id",
                   size := (max (ml.getD 0) count - count + 1, max (ml.getD 0) count) }) ∧
    (setPackageActivity (some 5) 2 pl nowMs).party = some { pid := "id", size := (4, 5) } ∧
    (setPackageActivity none 0 pl nowMs).party = none := by
  refine ⟨?_, ?_, ?_, ?_⟩
  · simp only [setPackageActivity]
    split
    · rename_i h
      simp [h]
    · rename_i h
      simp
      omega
  · simp only [setPackageActivity]
  · simp [setPackageActivity]
  · simp [setPackageActivity]

/-- C9: `set_package` stores `merge_len := max (previous, count)` before
attempting the network send, so the new maximum is retained on every
outcome — in particular when the socket is absent (the send fails with
`socketNotOpen`) and when the write breaks the pipe (the send fails with
`ConnectionLost` and the connection is torn down), the updated `merge_len`
survives. -/
theorem c9_merge_updated_before_send :
    (∀ (c : Client) (pl : PackagePayload) (count nowMs r : Nat),
      (c.set_package pl count nowMs r).1.merge_len = some (max (c.merge_len.getD 0) count)) ∧
    (∀ (cid : String) (pa : Option String) (ml : Option Nat) (pl : PackagePayload)
        (count nowMs r : Nat),
      (Client.set_package ⟨cid, none, pa, ml⟩ pl count nowMs r).2 = .error .socketNotOpen ∧
      (Client.set_package ⟨cid, none, pa, ml⟩ pl count nowMs r).1.merge_len =
        some (max (ml.getD 0) count)) ∧
    (∀ (cid : String) (pa : Option String) (ml : Option Nat) (reads : List ReadRes)
        (fates : List WriteFate) (w : List (Nat × WireMsg)) (pl : PackagePayload)
        (count nowMs r : Nat),
      (Client.set_package ⟨cid, some ⟨reads, .fail .brokenPipe :: fates, w⟩, pa, ml⟩
          pl count nowMs r).2 = .error .connectionLost ∧
      (Client.set_package ⟨cid, some ⟨reads, .fail .brokenPipe :: fates, w⟩, pa, ml⟩
          pl count nowMs r).1.stream = none ∧
      (Client.set_package ⟨cid, some ⟨reads, .fail .brokenPipe :: fates, w⟩, pa, ml⟩
          pl count nowMs r).1.merge_len = some (max (ml.getD 0) count)) := by
  refine ⟨?_, ?_, ?_⟩
  · intro c pl count nowMs r
    exact set_package_merge_len c pl count nowMs r
  · intro cid pa ml pl count nowMs r
    constructor
    · rfl
    · rfl
  · intro cid pa ml reads fates w pl count nowMs r
    refine ⟨rfl, rfl, rfl⟩

/-- C5: for every `u32` opcode and every payload whose UTF-8 byte length is
at most 65535, the frame assembled by `send` (4-byte little-endian opcode,
4-byte little-endian byte length, then the payload bytes) and read back by
`recv` on a paired socket yields exactly the original opcode and payload,
draining the frame from the socket. -/
theorem c5_frame_roundtrip (op : Nat) (p : List Nat) (hop : op < 4294967296)
    (hlen : p.length ≤ 65535) (hval : validUtf8 p = true)
    (cid : String) (pa : Option String) (ml : Option Nat)
    (fates : List WriteFate) (w : List (Nat × WireMsg)) :
    (Client.recv ⟨cid, some ⟨frameScript op p, fates, w⟩, pa, ml⟩).2 = .ok (op, p) ∧
    (Client.recv ⟨cid, some ⟨frameScript op p, fates, w⟩, pa, ml⟩).1.stream =
      some ⟨[], fates, w⟩ := by
  have hs : frameScript op p =
      [.bytes (u32le op), .bytes (u32le p.length), .bytes p] := by
    simp [frameScript, sendFrameBytes, u32le]
  have h1 : get_number ⟨[.bytes (u32le op), .bytes (u32le p.length), .bytes p], fates, w⟩ =
      (⟨[.bytes (u32le p.length), .bytes p], fates, w⟩, .ok op) := by
    simp only [get_number]
    rw [u32le_take4, leToNat_u32le op hop]
    simp [u32le]
  have h2 : get_number ⟨[.bytes (u32le p.length), .bytes p], fates, w⟩ =
      (⟨[.bytes p], fates, w⟩, .ok p.length) := by
    simp only [get_number]
    rw [u32le_take4, leToNat_u32le p.length (by omega)]
    simp [u32le]
  rw [show (Client.recv ⟨cid, some ⟨frameScript op p, fates, w⟩, pa, ml⟩) =
      (⟨cid, some ⟨[], fates, w⟩, pa, ml⟩, .ok (op, p)) from ?_]
  · exact ⟨rfl, rfl⟩
  · simp only [Client.recv, hs, h1, h2]
    simp [hval]

/-- C5 witness: the round trip at the concrete frame `opcode 1`,
payload "hi" (bytes 104, 105). -/
theorem c5_witness :
    (Client.recv ⟨"id", some ⟨frameScript 1 [104, 105], [], []⟩, none, none⟩).2 =
      .ok (1, [104, 105]) ∧
    (Client.recv ⟨"id", some ⟨frameScript 1 [104, 105], [], []⟩, none, none⟩).1.stream =
      some ⟨[], [], []⟩ :=
  c5_frame_roundtrip 1 [104, 105] (by norm_num) (by norm_num) (by decide) "id" none none [] []

/-- C6 counterexample: the claim says a broken pipe during *any* of `recv`'s
reads tears the connection down and fails with `ConnectionLost`, but a
broken pipe raised by the very first (opcode) read goes through
`get_number`'s bare `?`, so it propagates as a raw I/O error and the socket
stays open. -/
theorem c6_counterexample :
    (Client.recv ⟨"id", some ⟨[.ioFail .brokenPipe], [], []⟩, none, none⟩).2 =
      .error (.ioErr .brokenPipe) ∧
    (Client.recv ⟨"id", some ⟨[.ioFail .brokenPipe], [], []⟩, none, none⟩).1.stream =
      some ⟨[], [], []⟩ := by
  constructor
  · rfl
  · rfl

/-- C6 (amended): `recv` applies the send-style broken-pipe/reset handling
only to the payload `read_exact`: there the connection is torn down (stream
dropped) and the call fails with `ConnectionLost`; a broken-pipe or reset
condition during the 4-byte opcode or length reads instead propagates as a
raw I/O error and leaves the connection open. -/
theorem c6_recv_broken_pipe_handling (k : IOKind)
    (hk : k = .brokenPipe ∨ k = .connectionReset) :
    (∀ (cid : String) (pa : Option String) (ml : Option Nat) (rest : List ReadRes)
        (fates : List WriteFate) (w : List (Nat × WireMsg)),
      Client.recv ⟨cid, some ⟨.ioFail k :: rest, fates, w⟩, pa, ml⟩ =
        (⟨cid, some ⟨rest, fates, w⟩, pa, ml⟩, .error (.ioErr k))) ∧
    (∀ (cid : String) (pa : Option String) (ml : Option Nat) (b1 : List Nat)
        (rest : List ReadRes) (fates : List WriteFate) (w : List (Nat × WireMsg)),
      ¬ b1.length < 4 →
      Client.recv ⟨cid, some ⟨.bytes b1 :: .ioFail k :: rest, fates, w⟩, pa, ml⟩ =
        (⟨cid, some ⟨rest, fates, w⟩, pa, ml⟩, .error (.ioErr k))) ∧
    (∀ (cid : String) (pa : Option String) (ml : Option Nat) (b1 b2 : List Nat)
        (rest : List ReadRes) (fates : List WriteFate) (w : List (Nat × WireMsg)),
      ¬ b1.length < 4 → ¬ b2.length < 4 →
      Client.recv ⟨cid, some ⟨.bytes b1 :: .bytes b2 :: .ioFail k :: rest, fates, w⟩, pa, ml⟩ =
        (⟨cid, none, pa, ml⟩, .error .connectionLost)) := by
  refine ⟨?_, ?_, ?_⟩
  · intro cid pa ml rest fates w
    rfl
  · intro cid pa ml b1 rest fates w hb1
    simp [Client.recv, get_number, hb1]
  · intro cid pa ml b1 b2 rest fates w hb1 hb2
    rcases hk with hk | hk <;> subst hk <;>
      simp [Client.recv, get_number, hb1, hb2, Client.handle_io]

/-- C6 witness: the amended behavior at a concrete stream — broken pipe on
the payload read of a frame whose headers announce a 1-byte payload. -/
theorem c6_witness :
    Client.recv ⟨"id",
        some ⟨[.bytes [0, 0, 0, 0], .bytes [1, 0, 0, 0], .ioFail .brokenPipe], [], []⟩,
        none, none⟩ =
      (⟨"id", none, none, none⟩, .error .connectionLost) :=
  (c6_recv_broken_pipe_handling .brokenPipe (Or.inl rfl)).2.2 "id" none none
    [0, 0, 0, 0] [1, 0, 0, 0] [] [] [] (by norm_num) (by norm_num)

theorem reconnect_path_none (c : Client) (env : ConnEnv) (hp : env.ipcPath = none) :
    c.reconnect env = ((c.send 2 .disconnect).1, .error .endpointNotFound) := by
  simp only [Client.reconnect, hp]

theorem reconnect_refused (c : Client) (env : ConnEnv) (p : String)
    (hp : env.ipcPath = some p) (hs : env.socket = none) :
    c.reconnect env =
      ({ (c.send 2 .disconnect).1 with path := some p, stream := none },
       .error .connectionRefused) := by
  simp only [Client.reconnect, hp, hs]

theorem reconnect_ok (c : Client) (env : ConnEnv) (p : String) (reads : List ReadRes)
    (w : List (Nat × WireMsg)) (hp : env.ipcPath = some p)
    (hs : env.socket = some ⟨reads, [], w⟩) :
    (c.reconnect env).2 = .ok () := by
  simp only [Client.reconnect, hp, hs]
  simp [Client.handshake, Client.send]

theorem runStep_no_read (e : RunEnv) (s : LoopState)
    (hconn : s.client.is_connected = true) (hread : e.readBytes = []) :
    runStep e s = tickUnset e { s with buf := s.buf ++ e.readBytes } := by
  simp only [runStep, hconn, hread]
  simp

/-- C1 counterexample: with an unset pending since time 0, a tick at time 31
whose reconnect fails (no endpoint resolvable), `run` surfaces the error but
leaves `last_unset = Some 0` — the controller does *not* transition back to
`Idle`, contradicting the claim that the timestamp is cleared. -/
theorem c1_counterexample :
    (runStep ⟨[], 31, 0, 0, fun _ => none, 0, ⟨none, none, 0⟩, ⟨none, none, 0⟩⟩
        ⟨⟨"i", some ⟨[], [], []⟩, none, some 3⟩, [], some 0⟩).2 =
      .error .endpointNotFound ∧
    (runStep ⟨[], 31, 0, 0, fun _ => none, 0, ⟨none, none, 0⟩, ⟨none, none, 0⟩⟩
        ⟨⟨"i", some ⟨[], [], []⟩, none, some 3⟩, [], some 0⟩).1.lastUnset = some 0 := by
  constructor
  · rfl
  · rfl

/-- C1 (amended): if, on a debounce tick, more than 30 seconds have elapsed
since the pending unset and `reconnect()` fails (endpoint not found, or
connection refused), the error is surfaced to the caller and the
pending-unset timestamp is *retained* (and `merge_len` is untouched), so the
same pending unset is retried on later ticks; only a successful reconnect
returns the controller to `Idle` and resets `merge_len`. -/
theorem c1_reconnect_failure_keeps_pending (e : RunEnv) (s : LoopState) (t : Nat)
    (hconn : s.client.is_connected = true) (hread : e.readBytes = [])
    (hlu : s.lastUnset = some t) (htime : 30 < e.now - t) :
    (e.reconn.ipcPath = none →
      (runStep e s).2 = .error .endpointNotFound ∧
      (runStep e s).1.lastUnset = some t ∧
      (runStep e s).1.client.merge_len = s.client.merge_len) ∧
    (∀ p : String, e.reconn.ipcPath = some p → e.reconn.socket = none →
      (runStep e s).2 = .error .connectionRefused ∧
      (runStep e s).1.lastUnset = some t ∧
      (runStep e s).1.client.merge_len = s.client.merge_len) ∧
    (∀ (p : String) (reads : List ReadRes) (w : List (Nat × WireMsg)),
      e.reconn.ipcPath = some p → e.reconn.socket = some ⟨reads, [], w⟩ →
      (runStep e s).2 = .ok () ∧
      (runStep e s).1.lastUnset = none ∧
      (runStep e s).1.client.merge_len = none) := by
  rw [runStep_no_read e s hconn hread]
  refine ⟨?_, ?_, ?_⟩
  · intro hp
    simp only [tickUnset, hlu, if_pos htime,
      reconnect_path_none _ e.reconn hp]
    refine ⟨?_, ?_, ?_⟩ <;>
      first
        | trivial
        | exact hlu
        | exact send_merge_len s.client 2 .disconnect
  · intro p hp hs
    simp only [tickUnset, hlu, if_pos htime,
      reconnect_refused _ e.reconn p hp hs]
    refine ⟨?_, ?_, ?_⟩ <;>
      first
        | trivial
        | exact hlu
        | exact send_merge_len s.client 2 .disconnect
  · intro p reads w hp hs
    simp only [tickUnset, hlu, if_pos htime]
    have hok := reconnect_ok (({ s with buf := s.buf ++ e.readBytes } : LoopState).client)
      e.reconn p reads w hp hs
    cases hrc : (({ s with buf := s.buf ++ e.readBytes } : LoopState).client.reconnect e.reconn)
      with
    | mk c1 res =>
      rw [hrc] at hok
      simp only at hok
      subst hok
      simp [hrc]

/-- C1 witness: the amended behavior at concrete inputs — a failing
reconnect keeps the pending unset, a succeeding one clears it. -/
theorem c1_witness :
    ((runStep ⟨[], 31, 0, 0, fun _ => none, 0, ⟨none, none, 0⟩, ⟨none, none, 0⟩⟩
        ⟨⟨"i", some ⟨[], [], []⟩, none, some 3⟩, [], some 0⟩).2 =
      .error .endpointNotFound ∧
    (runStep ⟨[], 31, 0, 0, fun _ => none, 0, ⟨none, none, 0⟩, ⟨none, none, 0⟩⟩
        ⟨⟨"i", some ⟨[], [], []⟩, none, some 3⟩, [], some 0⟩).1.lastUnset = some 0 ∧
    (runStep ⟨[], 31, 0, 0, fun _ => none, 0, ⟨none, none, 0⟩, ⟨none, none, 0⟩⟩
        ⟨⟨"i", some ⟨[], [], []⟩, none, some 3⟩, [], some 0⟩).1.client.merge_len = some 3) :=
  (c1_reconnect_failure_keeps_pending
    ⟨[], 31, 0, 0, fun _ => none, 0, ⟨none, none, 0⟩, ⟨none, none, 0⟩⟩
    ⟨⟨"i", some ⟨[], [], []⟩, none, some 3⟩, [], some 0⟩ 0
    rfl rfl rfl (by norm_num)).1 rfl

theorem runTrace_append (l : List (Nat × Option DebCmd)) (x : Nat × Option DebCmd) :
    runTrace (l ++ [x]) = debounceStep x.1 x.2 (runTrace l) := by
  simp [runTrace, List.foldl_append]

theorem lastCmd_append_none (l : List (Nat × Option DebCmd)) (T : Nat) :
    lastCmd (l ++ [(T, none)]) = lastCmd l := by
  simp [lastCmd, List.reverse_append]

theorem lastCmd_append_some (l : List (Nat × Option DebCmd)) (T : Nat) (c : DebCmd) :
    lastCmd (l ++ [(T, some c)]) = some (T, c) := by
  simp [lastCmd, List.reverse_append]

theorem finalTime_append (l : List (Nat × Option DebCmd)) (x : Nat × Option DebCmd) :
    finalTime (l ++ [x]) = x.1 := by
  simp [finalTime, List.getLast?_append]

theorem finalTime_le_last (xs : List (Nat × Option DebCmd)) (x : Nat × Option DebCmd)
    (h : List.Chain' (· ≤ ·) ((xs ++ [x]).map Prod.fst)) (hne : xs ≠ []) :
    finalTime xs ≤ x.1 := by
  rw [List.map_append] at h
  rcases List.chain'_append.mp h with ⟨h1, h2, h3⟩
  cases hgl : xs.getLast? with
  | none => exact absurd (List.getLast?_eq_none_iff.mp hgl) hne
  | some p =>
    have hm : (xs.map Prod.fst).getLast? = some p.1 := by
      rw [List.getLast?_map, hgl]
      rfl
    have := h3 p.1 (by rw [hm]; simp) x.1 (by simp)
    simp only [finalTime, hgl, Option.map_some, Option.getD_some]
    exact this

/-- C2 counterexample: process an "unset" at time 0 and tick at time 30 —
exactly 30 seconds later.  The controller is still in `PendingUnset`
(the code clears only when elapsed is *strictly greater* than 30 s), yet
"fewer than 30 seconds have elapsed" is false, refuting the claimed iff. -/
theorem c2_counterexample :
    runTrace [(0, some DebCmd.unset), (30, none)] = some 0 ∧
    lastCmd [(0, some DebCmd.unset), (30, none)] = some (0, DebCmd.unset) ∧
    finalTime [(0, some DebCmd.unset), (30, none)] = 30 ∧
    ¬ (finalTime [(0, some DebCmd.unset), (30, none)] - 0 < 30) := by
  refine ⟨rfl, rfl, rfl, by decide⟩

/-- C2 (amended): for every monotonically-timed sequence of processed
"set"/"unset" commands (ticks modelled with successful dispatch and
reconnects), the controller is in `PendingUnset` after processing iff the
last command processed was "unset" and *at most* 30 seconds have elapsed
from it to the final tick. -/
theorem c2_pending_iff_last_unset_within_timeout (l : List (Nat × Option DebCmd)) :
    List.Chain' (· ≤ ·) (l.map Prod.fst) →
    ∀ t : Nat, (runTrace l = some t ↔
      lastCmd l = some (t, DebCmd.unset) ∧ finalTime l - t ≤ 30) := by
  induction l using List.reverseRecOn with
  | nil =>
    intro _ t
    simp [runTrace, lastCmd]
  | append_singleton xs x ih =>
    intro hsorted t
    obtain ⟨T, c⟩ := x
    have hs1 : List.Chain' (· ≤ ·) (xs.map Prod.fst) := by
      rw [List.map_append] at hsorted
      exact (List.chain'_append.mp hsorted).1
    cases c with
    | some cmd =>
      cases cmd with
      | set =>
        rw [runTrace_append, lastCmd_append_some]
        simp [debounceStep]
      | unset =>
        rw [runTrace_append, lastCmd_append_some, finalTime_append]
        simp only [debounceStep]
        constructor
        · intro h
          simp only [Nat.sub_self] at h
          simp only [show ¬ (30 < (0 : Nat)) from by omega, if_false] at h
          injection h with h3
          subst h3
          exact ⟨rfl, by omega⟩
        · rintro ⟨h1, h2⟩
          injection h1 with h3
          rw [Prod.mk.injEq] at h3
          obtain ⟨h4, -⟩ := h3
          subst h4
          simp
    | none =>
      rw [runTrace_append, lastCmd_append_none, finalTime_append]
      simp only [debounceStep]
      by_cases hxe : xs = []
      · subst hxe
        simp [runTrace, lastCmd]
      · have hfin : finalTime xs ≤ T := finalTime_le_last xs (T, none) hsorted hxe
        cases hrx : runTrace xs with
        | none =>
          simp only
          constructor
          · intro h
            cases h
          · rintro ⟨h1, h2⟩
            have hsome := (ih hs1 t).mpr ⟨h1, by omega⟩
            rw [hrx] at hsome
            cases hsome
        | some u =>
          have hu := (ih hs1 u).mp hrx
          simp only
          by_cases hfire : 30 < T - u
          · rw [if_pos hfire]
            constructor
            · intro h
              cases h
            · rintro ⟨h1, h2⟩
              rw [hu.1] at h1
              injection h1 with h3
              rw [Prod.mk.injEq] at h3
              obtain ⟨h4, -⟩ := h3
              omega
          · rw [if_neg hfire]
            constructor
            · intro h
              injection h with h3
              subst h3
              exact ⟨hu.1, by omega⟩
            · rintro ⟨h1, h2⟩
              rw [hu.1] at h1
              injection h1 with h3
              rw [Prod.mk.injEq] at h3
              obtain ⟨h4, -⟩ := h3
              rw [h4]

/-- C2 witness: the amended iff instantiated at a concrete sorted trace —
an unset at time 0 followed by a quiet tick at time 10 leaves the
controller in `PendingUnset(0)`. -/
theorem c2_witness : runTrace [(0, some DebCmd.unset), (10, none)] = some 0 :=
  (c2_pending_iff_last_unset_within_timeout [(0, some DebCmd.unset), (10, none)]
    (by simp [List.chain'_cons]) 0).mpr ⟨rfl, by decide⟩

theorem processCmds_merge_none (e : RunEnv) (s : LoopState)
    (h : (processCmds e s).1.client.merge_len = none) : s.client.merge_len = none := by
  simp only [processCmds] at h
  split at h
  · split at h
    · exact h
    · split at h
      · split at h
        · exact h
        · split at h
          · rename_i pl hpar hx c er heq
            have hm := set_package_merge_len s.client pl e.count e.nowMs e.setRand
            rw [heq] at hm
            dsimp only at hm h
            rw [hm] at h
            cases h
          · rename_i pl hpar hx c heq
            have hm := set_package_merge_len s.client pl e.count e.nowMs e.setRand
            rw [heq] at hm
            dsimp only at hm h
            rw [recv_merge_len, hm] at h
            cases h
      · split at h
        · exact h
        · exact h
  · exact h

theorem processCmds_lastUnset (e : RunEnv) (s : LoopState) :
    (processCmds e s).1.lastUnset = s.lastUnset ∨
    (processCmds e s).1.lastUnset = none ∨
    (processCmds e s).1.lastUnset = some e.now := by
  simp only [processCmds]
  split
  · split
    · exact Or.inl rfl
    · split
      · split
        · exact Or.inl rfl
        · split
          · exact Or.inl rfl
          · exact Or.inr (Or.inl rfl)
      · split
        · exact Or.inr (Or.inr rfl)
        · exact Or.inl rfl
  · exact Or.inl rfl

theorem tickUnset_merge_none (e : RunEnv) (s : LoopState)
    (h : (tickUnset e s).1.client.merge_len = none) :
    s.client.merge_len = none ∨ ∃ t, s.lastUnset = some t ∧ 30 < e.now - t := by
  simp only [tickUnset] at h
  split at h
  · exact Or.inl h
  · rename_i t heq
    split at h
    · rename_i hfire
      exact Or.inr ⟨t, heq, hfire⟩
    · exact Or.inl h

/-- C3: across successfully processed "set" commands the stored
`merge_len` never decreases — each set stores
`max (previous value, freshly queried count)` — and a `run` iteration can
reset `merge_len` to unset only through the debounce-tick reconnect (it was
already unset, or an unset was pending for strictly more than 30 seconds at
the tick, triggering the reconnect path). -/
theorem c3_merge_monotone_reset_only_on_reconnect :
    (∀ (c : Client) (pl : PackagePayload) (count nowMs r : Nat),
      c.merge_len.getD 0 ≤ (c.set_package pl count nowMs r).1.merge_len.getD 0 ∧
      (c.set_package pl count nowMs r).1.merge_len = some (max (c.merge_len.getD 0) count)) ∧
    (∀ (e : RunEnv) (s : LoopState),
      (runStep e s).1.client.merge_len = none →
      s.client.merge_len = none ∨ ∃ t, s.lastUnset = some t ∧ 30 < e.now - t) := by
  constructor
  · intro c pl count nowMs r
    have hm := set_package_merge_len c pl count nowMs r
    rw [hm]
    refine ⟨?_, rfl⟩
    simp only [Option.getD_some]
    exact le_max_left _ _
  · intro e s h
    simp only [runStep] at h
    split at h
    · dsimp only at h
      rw [connect_merge_len] at h
      exact Or.inl h
    · split at h
      · rename_i s1 er heq
        by_cases hlen : 0 < e.readBytes.length
        · rw [if_pos hlen] at heq
          have h1 : (processCmds e { s with buf := s.buf ++ e.readBytes }).1.client.merge_len
              = none := by
            rw [heq]
            exact h
          have h2 := processCmds_merge_none e { s with buf := s.buf ++ e.readBytes } h1
          exact Or.inl h2
        · rw [if_neg hlen] at heq
          have h2 := congrArg Prod.snd heq
          simp at h2
      · rename_i s1 heq
        have ht := tickUnset_merge_none e s1 h
        by_cases hlen : 0 < e.readBytes.length
        · rw [if_pos hlen] at heq
          have hs1 : s1 = (processCmds e { s with buf := s.buf ++ e.readBytes }).1 := by
            rw [heq]
          rcases ht with hnone | ⟨t, hl, htm⟩
          · rw [hs1] at hnone
            exact Or.inl
              (processCmds_merge_none e { s with buf := s.buf ++ e.readBytes } hnone)
          · rcases processCmds_lastUnset e { s with buf := s.buf ++ e.readBytes } with hlu | hlu | hlu
            · rw [hs1, hlu] at hl
              exact Or.inr ⟨t, hl, htm⟩
            · rw [hs1, hlu] at hl
              cases hl
            · rw [hs1, hlu] at hl
              injection hl with hl2
              omega
        · rw [if_neg hlen] at heq
          have hs1 : s1 = { s with buf := s.buf ++ e.readBytes } := by
            have := congrArg Prod.fst heq
            simpa using this.symm
          rw [hs1] at ht
          dsimp only at ht
          exact ht

theorem processCmds_congr (e : RunEnv) (c : Client) (lu : Option Nat) (b1 b2 : List Nat)
    (hv : validUtf8 b1 = validUtf8 b2)
    (hl : (splitTerm b1).getLast? = (splitTerm b2).getLast?) :
    obs (processCmds e ⟨c, b1, lu⟩) = obs (processCmds e ⟨c, b2, lu⟩) := by
  simp only [processCmds, hv, hl]
  split
  · split
    · rfl
    · split
      · split
        · rfl
        · split
          · rfl
          · rfl
      · split
        · rfl
        · rfl
  · rfl

theorem tickUnset_congr (e : RunEnv) (s1 s2 : LoopState) (hc : s1.client = s2.client)
    (hl : s1.lastUnset = s2.lastUnset) :
    obs (tickUnset e s1) = obs (tickUnset e s2) := by
  simp only [tickUnset, hl, hc]
  split
  · simp [obs, hc, hl]
  · split
    · split <;> simp [obs, hc, hl]
    · simp [obs, hc, hl]

theorem processCmds_env_readBytes (e : RunEnv) (b : List Nat) (s : LoopState) :
    processCmds { e with readBytes := b } s = processCmds e s := rfl

theorem tickUnset_env_readBytes (e : RunEnv) (b : List Nat) (s : LoopState) :
    tickUnset { e with readBytes := b } s = tickUnset e s := rfl

/-- C7: when a single read yields several NUL-terminated commands, only the
last one is dispatched — the observable outcome (client, pending-unset
timestamp, result) of the iteration is the same as if only the last command
had been read — and in particular the burst `"unset\0set {x}\0unset"`
dispatches only the trailing unset, transitioning the controller to
`PendingUnset(now)` with no client activity at all (for every parse oracle,
since the embedded set command is never parsed). -/
theorem c7_burst_coalescing :
    (∀ (e : RunEnv) (s : LoopState) (p c : List Nat),
      validUtf8 p = true → 0 ∉ c → c ≠ [] →
      obs (runStep { e with readBytes := p ++ 0 :: c } { s with buf := [] }) =
        obs (runStep { e with readBytes := c } { s with buf := [] })) ∧
    (∀ (e : RunEnv) (cid : String) (st : StreamSt) (pa : Option String) (ml : Option Nat)
        (lu : Option Nat),
      runStep { e with readBytes := burstBytes } ⟨⟨cid, some st, pa, ml⟩, [], lu⟩ =
        (⟨⟨cid, some st, pa, ml⟩, [], some e.now⟩, .ok ())) := by
  constructor
  · intro e s p c hp hc hne
    obtain ⟨sc, sb, slu⟩ := s
    have hv : validUtf8 (p ++ 0 :: c) = validUtf8 c := by
      rw [validUtf8_append p hp (0 :: c), validUtf8_cons_ascii 0 c (by omega)]
    have hl : (splitTerm (p ++ 0 :: c)).getLast? = (splitTerm c).getLast? := by
      rw [splitTerm_append_getLast p c hc hne, splitTerm_no_zero c hc hne]
      rfl
    have hlen1 : 0 < (p ++ 0 :: c).length := by simp
    have hlen2 : 0 < c.length := List.length_pos.mpr hne
    simp only [runStep, List.nil_append, processCmds_env_readBytes, tickUnset_env_readBytes,
      hlen1, hlen2, if_pos]
    by_cases hcon : sc.is_connected
    · rw [if_neg (by simp [hcon]), if_neg (by simp [hcon])]
      cases hm1 : processCmds e ⟨sc, p ++ 0 :: c, slu⟩ with
      | mk s1 r1 =>
        cases hm2 : processCmds e ⟨sc, c, slu⟩ with
        | mk s2 r2 =>
          have hobs := processCmds_congr e sc slu (p ++ 0 :: c) c hv hl
          rw [hm1, hm2] at hobs
          simp only [obs, Prod.mk.injEq] at hobs
          obtain ⟨hc1, hl1, hr1⟩ := hobs
          cases r1 with
          | error er =>
            cases hr1.symm
            simp [obs, hc1, hl1]
          | ok u =>
            cases u
            cases hr1.symm
            exact tickUnset_congr e s1 s2 hc1 hl1
    · rw [if_pos (by simp [Bool.not_eq_true] at hcon; simp [hcon]),
        if_pos (by simp [Bool.not_eq_true] at hcon; simp [hcon])]
      simp [obs]
  · intro e cid st pa ml lu
    have h1 : processCmds e ⟨⟨cid, some st, pa, ml⟩, burstBytes, lu⟩ =
        (⟨⟨cid, some st, pa, ml⟩, [], some e.now⟩, .ok ()) := by
      simp only [processCmds,
        show validUtf8 burstBytes = true from by decide,
        show (splitTerm burstBytes).getLast? = some unsetCmdBytes from by decide,
        show setCmdBytes.isPrefixOf unsetCmdBytes = false from by decide,
        show unsetCmdBytes.isPrefixOf unsetCmdBytes = true from by decide]
      simp
    simp only [runStep, List.nil_append, processCmds_env_readBytes, tickUnset_env_readBytes]
    rw [if_neg (by simp [Client.is_connected])]
    rw [if_pos (by decide : 0 < burstBytes.length)]
    rw [h1]
    simp only [tickUnset, Nat.sub_self]
    simp

/-- C7 witness: the coalescing equality at a concrete burst — the one-byte
command "a" followed by NUL and "unset" behaves exactly like "unset" alone. -/
theorem c7_witness :
    obs (runStep ⟨[97, 0, 117, 110, 115, 101, 116], 5, 0, 0, fun _ => none, 0,
          ⟨none, none, 0⟩, ⟨none, none, 0⟩⟩
        ⟨⟨"i", some ⟨[], [], []⟩, none, none⟩, [], none⟩) =
      obs (runStep ⟨[117, 110, 115, 101, 116], 5, 0, 0, fun _ => none, 0,
          ⟨none, none, 0⟩, ⟨none, none, 0⟩⟩
        ⟨⟨"i", some ⟨[], [], []⟩, none, none⟩, [], none⟩) :=
  c7_burst_coalescing.1
    ⟨[], 5, 0, 0, fun _ => none, 0, ⟨none, none, 0⟩, ⟨none, none, 0⟩⟩
    ⟨⟨"i", some ⟨[], [], []⟩, none, none⟩, [], none⟩
    [97] [117, 110, 115, 101, 116] (by decide) (by decide) (by decide)

/-- C10: when processing the last command of an iteration fails, the byte
accumulator is not cleared: (a) invalid UTF-8 in the accumulated buffer
fails with the protocol error and keeps all bytes buffered; (b) a "set"
command whose JSON payload fails to parse keeps the bytes; (c) a "set"
command whose `set_package` send fails keeps the bytes (while the merge_len
update from before the send survives); and (d) a `run` iteration depends
only on the concatenation `buf ++ readBytes`, so leftover bytes are
re-examined together with newly read bytes on a later connected
iteration. -/
theorem c10_buffer_kept_on_failure :
    (∀ (e : RunEnv) (s : LoopState),
      s.client.is_connected = true → 0 < e.readBytes.length →
      validUtf8 (s.buf ++ e.readBytes) = false →
      runStep e s = ({ s with buf := s.buf ++ e.readBytes }, .error .utf8Error)) ∧
    (∀ (e : RunEnv) (c : Client) (lu : Option Nat) (rest : List Nat),
      c.is_connected = true → validUtf8 rest = true → 0 ∉ rest →
      e.parse rest = none →
      runStep { e with readBytes := setCmdBytes ++ rest } ⟨c, [], lu⟩ =
        (⟨c, setCmdBytes ++ rest, lu⟩, .error .jsonError)) ∧
    (∀ (e : RunEnv) (cid : String) (reads : List ReadRes) (fates : List WriteFate)
        (w : List (Nat × WireMsg)) (pa : Option String) (ml : Option Nat)
        (lu : Option Nat) (rest : List Nat) (pl : PackagePayload),
      validUtf8 rest = true → 0 ∉ rest → e.parse rest = some pl →
      runStep { e with readBytes := setCmdBytes ++ rest }
          ⟨⟨cid, some ⟨reads, .fail .other :: fates, w⟩, pa, ml⟩, [], lu⟩ =
        (⟨⟨cid, some ⟨reads, fates, w⟩, pa, some (max (ml.getD 0) e.count)⟩,
            setCmdBytes ++ rest, lu⟩,
         .error (.ioErr .other))) ∧
    (∀ (e : RunEnv) (c : Client) (lu : Option Nat) (b1 r1 b2 r2 : List Nat),
      b1 ++ r1 = b2 ++ r2 → r1 ≠ [] → r2 ≠ [] →
      runStep { e with readBytes := r1 } ⟨c, b1, lu⟩ =
        runStep { e with readBytes := r2 } ⟨c, b2, lu⟩) := by
  refine ⟨?_, ?_, ?_, ?_⟩
  · intro e s hconn hlen hval
    obtain ⟨sc, sb, slu⟩ := s
    simp only [runStep]
    rw [if_neg (by simp_all), if_pos hlen]
    simp only [processCmds, hval]
    simp
  · intro e c lu rest hconn hv hnz hpar
    have hval : validUtf8 (setCmdBytes ++ rest) = true := by
      rw [validUtf8_append setCmdBytes (by decide) rest]
      exact hv
    have hnz2 : (0 : Nat) ∉ setCmdBytes ++ rest := by
      intro hmem
      rcases List.mem_append.mp hmem with h | h
      · simp [setCmdBytes] at h
      · exact hnz h
    have hne2 : setCmdBytes ++ rest ≠ [] := by simp [setCmdBytes]
    have hlast : (splitTerm (setCmdBytes ++ rest)).getLast? = some (setCmdBytes ++ rest) := by
      rw [splitTerm_no_zero _ hnz2 hne2]
      rfl
    have hpre : setCmdBytes.isPrefixOf (setCmdBytes ++ rest) = true := by
      simp [setCmdBytes, List.isPrefixOf]
    have hdrop : (setCmdBytes ++ rest).drop 4 = rest := rfl
    simp only [runStep, List.nil_append, processCmds_env_readBytes, tickUnset_env_readBytes]
    rw [if_neg (by simp [hconn])]
    rw [if_pos (by simp [setCmdBytes])]
    simp only [processCmds, hval, hlast, hpre, hdrop, hpar]
    simp
  · intro e cid reads fates w pa ml lu rest pl hv hnz hpar
    have hval : validUtf8 (setCmdBytes ++ rest) = true := by
      rw [validUtf8_append setCmdBytes (by decide) rest]
      exact hv
    have hnz2 : (0 : Nat) ∉ setCmdBytes ++ rest := by
      intro hmem
      rcases List.mem_append.mp hmem with h | h
      · simp [setCmdBytes] at h
      · exact hnz h
    have hne2 : setCmdBytes ++ rest ≠ [] := by simp [setCmdBytes]
    have hlast : (splitTerm (setCmdBytes ++ rest)).getLast? = some (setCmdBytes ++ rest) := by
      rw [splitTerm_no_zero _ hnz2 hne2]
      rfl
    have hpre : setCmdBytes.isPrefixOf (setCmdBytes ++ rest) = true := by
      simp [setCmdBytes, List.isPrefixOf]
    have hdrop : (setCmdBytes ++ rest).drop 4 = rest := rfl
    simp only [runStep, List.nil_append, processCmds_env_readBytes, tickUnset_env_readBytes]
    rw [if_neg (by simp [Client.is_connected])]
    rw [if_pos (by simp [setCmdBytes])]
    simp only [processCmds, hval, hlast, hpre, hdrop, hpar]
    simp [Client.set_package, Client.send, Client.handle_io]
  · intro e c lu b1 r1 b2 r2 heq hr1 hr2
    have h1 : 0 < r1.length := List.length_pos.mpr hr1
    have h2 : 0 < r2.length := List.length_pos.mpr hr2
    simp only [runStep, processCmds_env_readBytes, tickUnset_env_readBytes, heq]
    by_cases hcon : c.is_connected = false
    · rw [if_pos hcon, if_pos hcon]
    · rw [if_neg hcon, if_neg hcon, if_pos h1, if_pos h2]

/-- C10 witness: concrete failing iterations — an invalid UTF-8 byte, and a
"set" command with an unparsable payload — both leave the bytes in the
accumulator. -/
theorem c10_witness :
    runStep ⟨[255], 0, 0, 0, fun _ => none, 0, ⟨none, none, 0⟩, ⟨none, none, 0⟩⟩
        ⟨⟨"i", some ⟨[], [], []⟩, none, none⟩, [], none⟩ =
      (⟨⟨"i", some ⟨[], [], []⟩, none, none⟩, [255], none⟩, .error .utf8Error) ∧
    runStep ⟨[115, 101, 116, 32, 120], 0, 0, 0, fun _ => none, 0,
          ⟨none, none, 0⟩, ⟨none, none, 0⟩⟩
        ⟨⟨"i", some ⟨[], [], []⟩, none, none⟩, [], none⟩ =
      (⟨⟨"i", some ⟨[], [], []⟩, none, none⟩, [115, 101, 116, 32, 120], none⟩,
       .error .jsonError) :=
  ⟨c10_buffer_kept_on_failure.1
      ⟨[255], 0, 0, 0, fun _ => none, 0, ⟨none, none, 0⟩, ⟨none, none, 0⟩⟩
      ⟨⟨"i", some ⟨[], [], []⟩, none, none⟩, [], none⟩ rfl (by decide) (by decide),
   c10_buffer_kept_on_failure.2.1
      ⟨[], 0, 0, 0, fun _ => none, 0, ⟨none, none, 0⟩, ⟨none, none, 0⟩⟩
      ⟨"i", some ⟨[], [], []⟩, none, none⟩ none [120] rfl (by decide) (by decide) rfl⟩

/-- C3 witness: a concrete iteration whose tick successfully reconnects
resets `merge_len` to unset, and the theorem pins this on the pending unset
being over 30 seconds old. -/
theorem c3_witness :
    (some 3 : Option Nat) = none ∨ ∃ t : Nat, (some 0 : Option Nat) = some t ∧ 30 < 31 - t :=
  c3_merge_monotone_reset_only_on_reconnect.2
    ⟨[], 31, 0, 0, fun _ => none, 0, ⟨none, none, 0⟩, ⟨some "p", some ⟨[], [], []⟩, 0⟩⟩
    ⟨⟨"i", some ⟨[], [], []⟩, none, some 3⟩, [], some 0⟩ rfl

/-- Fidelity of the C2 trace model: on a connected client whose sends
succeed, with a parsable payload and a working reconnect environment, one
`run` iteration carrying no command, a lone "unset", or a lone
"set <json>" moves `last_unset` exactly as `debounceStep` prescribes, and
the iteration succeeds. -/
theorem debounce_agrees_with_runStep (e : RunEnv) (cid : String) (pa : Option String)
    (ml : Option Nat) (lu : Option Nat) (cmd : Option DebCmd) (rest : List Nat)
    (pl : PackagePayload) (reads : List ReadRes) (w : List (Nat × WireMsg))
    (p2 : String) (rds2 : List ReadRes) (w2 : List (Nat × WireMsg))
    (hparse : e.parse rest = some pl) (hv : validUtf8 rest = true) (hnz : 0 ∉ rest)
    (hrp : e.reconn.ipcPath = some p2) (hrs : e.reconn.socket = some ⟨rds2, [], w2⟩) :
    ((runStep { e with readBytes :=
        match cmd with
        | none => []
        | some .unset => unsetCmdBytes
        | some .set => setCmdBytes ++ rest }
      ⟨⟨cid, some ⟨reads, [], w⟩, pa, ml⟩, [], lu⟩).1.lastUnset =
        debounceStep e.now cmd lu) ∧
    ((runStep { e with readBytes :=
        match cmd with
        | none => []
        | some .unset => unsetCmdBytes
        | some .set => setCmdBytes ++ rest }
      ⟨⟨cid, some ⟨reads, [], w⟩, pa, ml⟩, [], lu⟩).2 = .ok ()) := by
  cases cmd with
  | none =>
    simp only [runStep, List.nil_append, List.append_nil, tickUnset_env_readBytes]
    rw [if_neg (by simp [Client.is_connected])]
    rw [if_neg (by simp)]
    simp only [debounceStep, tickUnset]
    cases lu with
    | none => simp
    | some t =>
      simp only
      by_cases hfire : 30 < e.now - t
      · rw [if_pos hfire, if_pos hfire]
        have hok := reconnect_ok (⟨cid, some ⟨reads, [], w⟩, pa, ml⟩ : Client) e.reconn
          p2 rds2 w2 hrp hrs
        cases hrc : (⟨cid, some ⟨reads, [], w⟩, pa, ml⟩ : Client).reconnect e.reconn with
        | mk c1 res =>
          rw [hrc] at hok
          simp only at hok
          subst hok
          simp
      · rw [if_neg hfire, if_neg hfire]
        simp
  | some dc =>
    cases dc with
    | unset =>
      have h1 : processCmds e ⟨⟨cid, some ⟨reads, [], w⟩, pa, ml⟩, unsetCmdBytes, lu⟩ =
          (⟨⟨cid, some ⟨reads, [], w⟩, pa, ml⟩, [], some e.now⟩, .ok ()) := by
        simp only [processCmds,
          show validUtf8 unsetCmdBytes = true from by decide,
          show (splitTerm unsetCmdBytes).getLast? = some unsetCmdBytes from by decide,
          show setCmdBytes.isPrefixOf unsetCmdBytes = false from by decide,
          show unsetCmdBytes.isPrefixOf unsetCmdBytes = true from by decide]
        simp
      simp only [runStep, List.nil_append, processCmds_env_readBytes, tickUnset_env_readBytes]
      rw [if_neg (by simp [Client.is_connected])]
      rw [if_pos (by decide : 0 < unsetCmdBytes.length)]
      rw [h1]
      simp only [tickUnset, debounceStep, Nat.sub_self]
      simp
    | set =>
      have hval : validUtf8 (setCmdBytes ++ rest) = true := by
        rw [validUtf8_append setCmdBytes (by decide) rest]
        exact hv
      have hnz2 : (0 : Nat) ∉ setCmdBytes ++ rest := by
        intro hmem
        rcases List.mem_append.mp hmem with h | h
        · simp [setCmdBytes] at h
        · exact hnz h
      have hne2 : setCmdBytes ++ rest ≠ [] := by simp [setCmdBytes]
      have hlast : (splitTerm (setCmdBytes ++ rest)).getLast? = some (setCmdBytes ++ rest) := by
        rw [splitTerm_no_zero _ hnz2 hne2]
        rfl
      have hpre : setCmdBytes.isPrefixOf (setCmdBytes ++ rest) = true := by
        simp [setCmdBytes, List.isPrefixOf]
      have hdrop : (setCmdBytes ++ rest).drop 4 = rest := rfl
      simp only [runStep, List.nil_append, processCmds_env_readBytes, tickUnset_env_readBytes]
      rw [if_neg (by simp [Client.is_connected])]
      rw [if_pos (by simp [setCmdBytes])]
      simp only [processCmds, hval, hlast, hpre, hdrop, hparse]
      simp only [Client.set_package, Client.send]
      simp only [tickUnset, debounceStep]
      simp
